import Mathlib

/-!
# ThreadSafeQueue (src/Queue/ThreadSafeQueue.cc)

A shallow embedding of the class template `ThreadSafeQueue<T>`.

* The member `std::queue<std::shared_ptr<T>> queue` is a list of handles, front first.
  A handle is an index into the heap of `T` objects created by `std::make_shared`.
  Copying a `std::shared_ptr` copies the handle, not the object it points to.
* The members `mutex` and `condition` carry no data; what an operation does to them is
  recorded as a sequence of events, in program order.
* `std::scoped_lock` and `std::unique_lock` acquire in their constructor and release when
  the scope is left, which is at every `return` and at the closing brace.
* The element type `T` is a template parameter; its move assignment is a parameter of
  the model (`MoveAssign`).
-/

namespace MT

/-- The move assignment of the element type: after `dst = std::move(src)` the slot `dst`
holds the value `src` had, and `src` is left holding `residue` of that value. For `int`
the residue is the value itself; for `std::unique_ptr` it is the null pointer. -/
structure MoveAssign (T : Type) where
  residue : T → T

/-- Move assignment of a trivially copyable type such as `int`: the source keeps its value. -/
def trivialMove (T : Type) : MoveAssign T := ⟨fun v => v⟩

/-- Move assignment of `std::unique_ptr<int>`, with `none` the null pointer: the source is
null afterwards. -/
def uniquePtrMove : MoveAssign (Option Int) := ⟨fun _ => none⟩

/-- The queue object an event concerns: the object the member function runs on (`this`),
or the argument `other` of the copy constructor. -/
inductive Obj where
  | self
  | other
  deriving DecidableEq, Repr

/-- What an operation does to the members `mutex`, `queue` and `condition`. -/
inductive Event where
  /-- the call `std::make_shared<T>(std::move(value))` -/
  | makeShared
  /-- constructor of `scoped_lock` / `unique_lock` on the mutex of the object; also the
  re-acquisition at the end of a wait -/
  | lock (o : Obj)
  /-- destructor of the lock object; also the release at the start of a wait -/
  | unlock (o : Obj)
  /-- a read of the member `queue` of the object: `empty()`, `front()`, source of a copy -/
  | seqRead (o : Obj)
  /-- a write of the member `queue` of the object: `push`, `pop`, target of a copy -/
  | seqWrite (o : Obj)
  /-- the call `condition.notify_one()` -/
  | notifyOne (o : Obj)
  /-- the call `condition.notify_all()`; no member function issues it -/
  | notifyAll (o : Obj)
  /-- the calling thread is suspended inside `condition.wait` -/
  | suspend (o : Obj)
  deriving DecidableEq, Repr

/-- The data members of a `ThreadSafeQueue<T>`: the handles held by `queue`, front first. -/
structure ThreadSafeQueue where
  queue : List Nat
  deriving DecidableEq, Repr

/-- The state a member function runs in: the heap of `T` objects behind the handles, the
object `this`, and the events issued so far (oldest first). -/
structure M (T : Type) where
  heap : List T
  self : ThreadSafeQueue
  trace : List Event

variable {T : Type}

/-- Record an event. -/
def M.emit (m : M T) (e : Event) : M T :=
  { m with trace := m.trace ++ [e] }

/-- The call `std::make_shared<T>(std::move(value))`: a new object at a fresh address. -/
def M.make_shared (m : M T) (value : T) : Nat × M T :=
  (m.heap.length, { m with heap := m.heap ++ [value], trace := m.trace ++ [Event.makeShared] })

/-- Acquire `this->mutex`. -/
def M.lock (m : M T) : M T := m.emit (Event.lock Obj.self)

/-- Release `this->mutex`. -/
def M.unlock (m : M T) : M T := m.emit (Event.unlock Obj.self)

/-- The call `queue.empty()`. -/
def M.queue_empty (m : M T) : Bool × M T :=
  (m.self.queue.isEmpty, m.emit (Event.seqRead Obj.self))

/-- The call `queue.front()`; the handle is absent when the queue holds nothing. -/
def M.queue_front (m : M T) : Option Nat × M T :=
  (m.self.queue.head?, m.emit (Event.seqRead Obj.self))

/-- The call `queue.pop()`. -/
def M.queue_pop (m : M T) : M T :=
  { m with self := ⟨m.self.queue.tail⟩, trace := m.trace ++ [Event.seqWrite Obj.self] }

/-- The call `queue.push(ptr)`. -/
def M.queue_push (m : M T) (ptr : Nat) : M T :=
  { m with self := ⟨m.self.queue ++ [ptr]⟩, trace := m.trace ++ [Event.seqWrite Obj.self] }

/-- The call `condition.notify_one()`. -/
def M.notify_one (m : M T) : M T := m.emit (Event.notifyOne Obj.self)

/-- The assignment `value = std::move(*ptr)`: the slot receives the object's value and the
object keeps the residue of the move. A handle always points to a live object; for an
address outside the heap the slot keeps its value. -/
def M.move_out (mv : MoveAssign T) (m : M T) (ptr : Nat) (value : T) : T × M T :=
  match m.heap[ptr]? with
  | some v => (v, { m with heap := m.heap.set ptr (mv.residue v) })
  | none => (value, m)

/-- Constructor `ThreadSafeQueue()`: no handles. -/
def ThreadSafeQueue.new : ThreadSafeQueue := ⟨[]⟩

/-- State in which a member function of `q` starts, with heap `h` and no events yet. -/
def M.start (h : List T) (q : ThreadSafeQueue) : M T := ⟨h, q, []⟩

/-- Constructor `ThreadSafeQueue(const ThreadSafeQueue& other)`:
`std::scoped_lock lk(mutex); queue = other.queue;` The lock taken is the one of the object
under construction. -/
def copy (other : ThreadSafeQueue) (h : List T) : M T :=
  let m : M T := M.start h ThreadSafeQueue.new
  let m := m.lock
  let m := m.emit (Event.seqRead Obj.other)
  let m : M T := { m with self := ⟨other.queue⟩, trace := m.trace ++ [Event.seqWrite Obj.self] }
  m.unlock

/-- Member `void push(T value)`. -/
def push (value : T) (m : M T) : M T :=
  let (ptr, m) := m.make_shared value
  let m := m.lock
  let m := m.queue_push ptr
  let m := m.notify_one
  m.unlock

/-- Member `bool try_pop(T& value)`; returns the flag and the slot after the call. -/
def try_pop_ref (mv : MoveAssign T) (value : T) (m : M T) : (Bool × T) × M T :=
  let m := m.lock
  let (e, m) := m.queue_empty
  if e then ((false, value), m.unlock)
  else
    match m.queue_front with
    | (some ptr, m) =>
      let (value, m) := m.move_out mv ptr value
      let m := m.queue_pop
      ((true, value), m.unlock)
    | (none, m) => ((false, value), m.unlock)

/-- Member `std::shared_ptr<T> try_pop()`; `none` is `nullptr`. -/
def try_pop (m : M T) : Option Nat × M T :=
  let m := m.lock
  let (e, m) := m.queue_empty
  if e then (none, m.unlock)
  else
    let (ptr, m) := m.queue_front
    let m := m.queue_pop
    (ptr, m.unlock)

/-- The call `condition.wait(lk, [&]{return !queue.empty();})`, which is
`while (!pred()) wait(lk);`. Each `wait(lk)` releases the mutex, suspends the thread and
re-acquires the mutex on wake-up. `wakeups` is the number of times the suspended thread is
woken while no other thread has changed the sequence. The result is `true` when the
predicate held and the call returned with the mutex held, `false` when the thread is still
suspended. -/
def condition_wait : Nat → M T → Bool × M T
  | 0, m =>
    let (e, m) := m.queue_empty
    if !e then (true, m) else (false, (m.unlock).emit (Event.suspend Obj.self))
  | n + 1, m =>
    let (e, m) := m.queue_empty
    if !e then (true, m)
    else condition_wait n (((m.unlock).emit (Event.suspend Obj.self)).lock)

/-- Member `void wait_and_pop(T& value)`; `none` when the call has not returned. -/
def wait_and_pop_ref (mv : MoveAssign T) (wakeups : Nat) (value : T) (m : M T) :
    Option T × M T :=
  let m := m.lock
  match condition_wait wakeups m with
  | (false, m) => (none, m)
  | (true, m) =>
    match m.queue_front with
    | (some ptr, m) =>
      let (value, m) := m.move_out mv ptr value
      let m := m.queue_pop
      (some value, m.unlock)
    | (none, m) => (none, m.unlock)

/-- Member `std::shared_ptr<T> wait_and_pop()`; `none` when the call has not returned. -/
def wait_and_pop (wakeups : Nat) (m : M T) : Option Nat × M T :=
  let m := m.lock
  match condition_wait wakeups m with
  | (false, m) => (none, m)
  | (true, m) =>
    let (ptr, m) := m.queue_front
    let m := m.queue_pop
    (ptr, m.unlock)

/-- Member `bool empty() const`. -/
def empty (m : M T) : Bool × M T :=
  let m := m.lock
  let (e, m) := m.queue_empty
  (e, m.unlock)

/-! ## Observations -/

/-- The object a handle points to. -/
def deref (h : List T) (ptr : Nat) : Option T := h[ptr]?

/-- The sequence of elements a queue holds, front first: the objects behind its handles. -/
def contents (h : List T) (q : ThreadSafeQueue) : List (Option T) :=
  q.queue.map (deref h)

/-- Well-formed state: the handles of `queue` come from distinct `make_shared` calls and
point into the heap. -/
def WF (m : M T) : Prop :=
  m.self.queue.Nodup ∧ ∀ p ∈ m.self.queue, p < m.heap.length

instance (m : M T) : Decidable (WF m) := by
  unfold WF
  exact inferInstance

/-! ## Sequences of operations on one queue, in lock order -/

/-- A call of a member function. The slot of a reference form is the value the caller's
variable holds before the call. -/
inductive Op (T : Type) where
  | push (value : T)
  | try_pop_ref (slot : T)
  | try_pop
  | wait_and_pop_ref (wakeups : Nat) (slot : T)
  | wait_and_pop (wakeups : Nat)
  | empty

/-- What the caller sees of a call. -/
inductive Res (T : Type) where
  /-- the call of `push` returned -/
  | done
  /-- the call of `try_pop(T&)` returned the flag; the slot holds the value -/
  | flag (b : Bool) (slot : T)
  /-- the call of `try_pop()` or `wait_and_pop()` returned the handle; `none` is `nullptr` -/
  | handle (p : Option Nat)
  /-- the call of `wait_and_pop(T&)` returned; the slot holds the value -/
  | value (slot : T)
  /-- the call of `wait_and_pop` has not returned: the thread is suspended -/
  | blocked
  /-- the call of `empty()` returned the flag -/
  | isEmpty (b : Bool)
  deriving DecidableEq

/-- One call on the object of `m`. -/
def step (mv : MoveAssign T) : Op T → M T → Res T × M T
  | Op.push v, m => (Res.done, push v m)
  | Op.try_pop_ref s, m => (Res.flag (try_pop_ref mv s m).1.1 (try_pop_ref mv s m).1.2,
      (try_pop_ref mv s m).2)
  | Op.try_pop, m => (Res.handle (try_pop m).1, (try_pop m).2)
  | Op.wait_and_pop_ref n s, m =>
    match wait_and_pop_ref mv n s m with
    | (some v, m1) => (Res.value v, m1)
    | (none, m1) => (Res.blocked, m1)
  | Op.wait_and_pop n, m =>
    match wait_and_pop n m with
    | (some p, m1) => (Res.handle (some p), m1)
    | (none, m1) => (Res.blocked, m1)
  | Op.empty, m => (Res.isEmpty (empty m).1, (empty m).2)

/-- The element a call delivered to its caller, read when the call returns: one element
for a successful pop, nothing otherwise. -/
def delivered (h : List T) : Res T → List (Option T)
  | Res.flag true v => [some v]
  | Res.value v => [some v]
  | Res.handle (some p) => [deref h p]
  | _ => []

/-- State after a sequence of calls. -/
def exec (mv : MoveAssign T) : List (Op T) → M T → M T
  | [], m => m
  | o :: os, m => exec mv os (step mv o m).2

/-- Results of a sequence of calls, in order. -/
def results (mv : MoveAssign T) : List (Op T) → M T → List (Res T)
  | [], _ => []
  | o :: os, m => (step mv o m).1 :: results mv os (step mv o m).2

/-- For each call of a sequence, what it delivered. -/
def deliveries (mv : MoveAssign T) : List (Op T) → M T → List (List (Option T))
  | [], _ => []
  | o :: os, m =>
    delivered (step mv o m).2.heap (step mv o m).1 :: deliveries mv os (step mv o m).2

/-- Values pushed by a sequence of calls, in order. -/
def pushed : List (Op T) → List T
  | [] => []
  | Op.push v :: os => v :: pushed os
  | _ :: os => pushed os

/-- A call of `try_pop`, in either form. -/
def Op.isTryPop : Op T → Bool
  | Op.try_pop_ref _ => true
  | Op.try_pop => true
  | _ => false

/-- A call of a pop, in any form. -/
def Op.isPop : Op T → Bool
  | Op.push _ => false
  | Op.empty => false
  | _ => true

/-! ## Lock discipline on event sequences -/

/-- Every read or write of an object's sequence happens while the thread holds that
object's mutex; `held` lists the mutexes held at the start. -/
def disciplined : List Obj → List Event → Bool
  | _, [] => true
  | held, Event.lock o :: es => disciplined (o :: held) es
  | held, Event.unlock o :: es => disciplined (held.erase o) es
  | held, Event.seqRead o :: es => decide (o ∈ held) && disciplined held es
  | held, Event.seqWrite o :: es => decide (o ∈ held) && disciplined held es
  | held, _ :: es => disciplined held es

/-- The mutexes held after a sequence of events. -/
def heldAfter : List Obj → List Event → List Obj
  | held, [] => held
  | held, Event.lock o :: es => heldAfter (o :: held) es
  | held, Event.unlock o :: es => heldAfter (held.erase o) es
  | held, _ :: es => heldAfter held es

/-- No signal on an object's condition is issued while the thread holds that object's
mutex. -/
def signalsUnlocked : List Obj → List Event → Bool
  | _, [] => true
  | held, Event.lock o :: es => signalsUnlocked (o :: held) es
  | held, Event.unlock o :: es => signalsUnlocked (held.erase o) es
  | held, Event.notifyOne o :: es => decide (o ∉ held) && signalsUnlocked held es
  | held, Event.notifyAll o :: es => decide (o ∉ held) && signalsUnlocked held es
  | held, _ :: es => signalsUnlocked held es

/-- Every signal on an object's condition is issued while the thread holds that object's
mutex. -/
def signalsLocked : List Obj → List Event → Bool
  | _, [] => true
  | held, Event.lock o :: es => signalsLocked (o :: held) es
  | held, Event.unlock o :: es => signalsLocked (held.erase o) es
  | held, Event.notifyOne o :: es => decide (o ∈ held) && signalsLocked held es
  | held, Event.notifyAll o :: es => decide (o ∈ held) && signalsLocked held es
  | held, _ :: es => signalsLocked held es

/-- The event is a signal on a condition. -/
def Event.isSignal : Event → Bool
  | Event.notifyOne _ => true
  | Event.notifyAll _ => true
  | _ => false

/-- The event suspends the thread. -/
def Event.isSuspend : Event → Bool
  | Event.suspend _ => true
  | _ => false

/-! ## Events of the member functions -/

/-- Events of a `condition.wait` that finds the sequence empty and is woken `n` times. -/
def blockedEvents : Nat → List Event
  | 0 => [Event.seqRead Obj.self, Event.unlock Obj.self, Event.suspend Obj.self]
  | n + 1 => [Event.seqRead Obj.self, Event.unlock Obj.self, Event.suspend Obj.self,
      Event.lock Obj.self] ++ blockedEvents n

/-- Events of a pop that finds an element. -/
def popEvents : List Event :=
  [Event.lock Obj.self, Event.seqRead Obj.self, Event.seqRead Obj.self,
    Event.seqWrite Obj.self, Event.unlock Obj.self]

/-- Events of `push`. -/
def pushEvents : List Event :=
  [Event.makeShared, Event.lock Obj.self, Event.seqWrite Obj.self,
    Event.notifyOne Obj.self, Event.unlock Obj.self]

/-- Events of a `try_pop` or `empty` that finds no element. -/
def probeEvents : List Event :=
  [Event.lock Obj.self, Event.seqRead Obj.self, Event.unlock Obj.self]

/-! ## Successful pops, example states -/

/-- A pop that delivered an element to its caller. -/
def Res.isPopSuccess : Res T → Bool
  | Res.flag true _ => true
  | Res.value _ => true
  | Res.handle (some _) => true
  | _ => false

/-- A queue holding the handles 0 and 1 of the objects 5 and 6. -/
def twoElems : M Nat := ⟨[5, 6], ⟨[0, 1]⟩, []⟩

/-- Queue A of `std::unique_ptr<int>` after `A.push(p)` with `p` pointing to 7. -/
def queueA : M (Option Int) := push (some 7) (M.start [] ThreadSafeQueue.new)

/-- Queue B, constructed by `ThreadSafeQueue B(A)`. -/
def queueB : M (Option Int) := copy queueA.self queueA.heap

/-- Queue A after the copy and a further `A.push(q)` with `q` pointing to 4. -/
def queueA2 : M (Option Int) := push (some 4) (M.start queueB.heap queueA.self)

/-! ## What each member function does to a state -/

theorem push_eq (v : T) (m : M T) :
    push v m = ⟨m.heap ++ [v], ⟨m.self.queue ++ [m.heap.length]⟩, m.trace ++ pushEvents⟩ := by
  simp [push, M.make_shared, M.lock, M.queue_push, M.notify_one, M.unlock, M.emit, pushEvents]

theorem try_pop_ref_nil (mv : MoveAssign T) (s : T) (h : List T) (t : List Event) :
    try_pop_ref mv s ⟨h, ⟨[]⟩, t⟩ = ((false, s), ⟨h, ⟨[]⟩, t ++ probeEvents⟩) := by
  simp [try_pop_ref, M.lock, M.queue_empty, M.unlock, M.emit, probeEvents]

theorem try_pop_ref_cons (mv : MoveAssign T) (s v : T) (h : List T) (t : List Event)
    (p : Nat) (rest : List Nat) (hv : h[p]? = some v) :
    try_pop_ref mv s ⟨h, ⟨p :: rest⟩, t⟩
      = ((true, v), ⟨h.set p (mv.residue v), ⟨rest⟩, t ++ popEvents⟩) := by
  simp [try_pop_ref, M.lock, M.queue_empty, M.queue_front, M.move_out, M.queue_pop, M.unlock,
    M.emit, popEvents, hv]

theorem try_pop_nil (h : List T) (t : List Event) :
    try_pop (⟨h, ⟨[]⟩, t⟩ : M T) = (none, ⟨h, ⟨[]⟩, t ++ probeEvents⟩) := by
  simp [try_pop, M.lock, M.queue_empty, M.unlock, M.emit, probeEvents]

theorem try_pop_cons (h : List T) (t : List Event) (p : Nat) (rest : List Nat) :
    try_pop (⟨h, ⟨p :: rest⟩, t⟩ : M T) = (some p, ⟨h, ⟨rest⟩, t ++ popEvents⟩) := by
  simp [try_pop, M.lock, M.queue_empty, M.queue_front, M.queue_pop, M.unlock, M.emit,
    popEvents]

theorem condition_wait_nil (n : Nat) (h : List T) (t : List Event) :
    condition_wait n (⟨h, ⟨[]⟩, t⟩ : M T) = (false, ⟨h, ⟨[]⟩, t ++ blockedEvents n⟩) := by
  induction n generalizing t with
  | zero => simp [condition_wait, M.queue_empty, M.unlock, M.emit, blockedEvents]
  | succ n ih =>
    simp [condition_wait, M.queue_empty, M.unlock, M.lock, M.emit, blockedEvents, ih]

theorem condition_wait_cons (n : Nat) (h : List T) (t : List Event) (p : Nat)
    (rest : List Nat) :
    condition_wait n (⟨h, ⟨p :: rest⟩, t⟩ : M T)
      = (true, ⟨h, ⟨p :: rest⟩, t ++ [Event.seqRead Obj.self]⟩) := by
  cases n <;> simp [condition_wait, M.queue_empty, M.emit]

theorem wait_and_pop_ref_nil (mv : MoveAssign T) (n : Nat) (s : T) (h : List T)
    (t : List Event) :
    wait_and_pop_ref mv n s ⟨h, ⟨[]⟩, t⟩
      = (none, ⟨h, ⟨[]⟩, t ++ Event.lock Obj.self :: blockedEvents n⟩) := by
  simp [wait_and_pop_ref, M.lock, M.emit, condition_wait_nil]

theorem wait_and_pop_ref_cons (mv : MoveAssign T) (n : Nat) (s v : T) (h : List T)
    (t : List Event) (p : Nat) (rest : List Nat) (hv : h[p]? = some v) :
    wait_and_pop_ref mv n s ⟨h, ⟨p :: rest⟩, t⟩
      = (some v, ⟨h.set p (mv.residue v), ⟨rest⟩, t ++ popEvents⟩) := by
  simp [wait_and_pop_ref, M.lock, M.emit, condition_wait_cons, M.queue_front, M.move_out,
    M.queue_pop, M.unlock, popEvents, hv]

theorem wait_and_pop_nil (n : Nat) (h : List T) (t : List Event) :
    wait_and_pop n (⟨h, ⟨[]⟩, t⟩ : M T)
      = (none, ⟨h, ⟨[]⟩, t ++ Event.lock Obj.self :: blockedEvents n⟩) := by
  simp [wait_and_pop, M.lock, M.emit, condition_wait_nil]

theorem wait_and_pop_cons (n : Nat) (h : List T) (t : List Event) (p : Nat)
    (rest : List Nat) :
    wait_and_pop n (⟨h, ⟨p :: rest⟩, t⟩ : M T) = (some p, ⟨h, ⟨rest⟩, t ++ popEvents⟩) := by
  simp [wait_and_pop, M.lock, M.emit, condition_wait_cons, M.queue_front, M.queue_pop,
    M.unlock, popEvents]

theorem empty_eq (m : M T) :
    empty m = (m.self.queue.isEmpty, ⟨m.heap, m.self, m.trace ++ probeEvents⟩) := by
  simp [empty, M.lock, M.queue_empty, M.unlock, M.emit, probeEvents]

theorem copy_eq (other : ThreadSafeQueue) (h : List T) :
    copy other h = ⟨h, other, [Event.lock Obj.self, Event.seqRead Obj.other,
      Event.seqWrite Obj.self, Event.unlock Obj.self]⟩ := by
  simp [copy, M.start, M.lock, M.unlock, M.emit]

/-! ## Heap facts -/

theorem deref_append_of_lt (h : List T) (v : T) (p : Nat) (hp : p < h.length) :
    deref (h ++ [v]) p = deref h p := by
  simp [deref, List.getElem?_append_left hp]

theorem deref_append_length (h : List T) (v : T) : deref (h ++ [v]) h.length = some v := by
  simp [deref]

theorem deref_set_ne (h : List T) (p q : Nat) (x : T) (hne : p ≠ q) :
    deref (h.set p x) q = deref h q := by
  simp [deref, List.getElem?_set_ne hne]

theorem contents_append (h : List T) (v : T) (q : ThreadSafeQueue)
    (hq : ∀ p ∈ q.queue, p < h.length) : contents (h ++ [v]) q = contents h q := by
  unfold contents
  apply List.map_congr_left
  intro p hp
  exact deref_append_of_lt h v p (hq p hp)

theorem contents_set (h : List T) (p : Nat) (x : T) (q : ThreadSafeQueue)
    (hp : p ∉ q.queue) : contents (h.set p x) q = contents h q := by
  unfold contents
  apply List.map_congr_left
  intro a ha
  apply deref_set_ne
  rintro rfl
  exact hp ha

theorem deref_of_lt (h : List T) (p : Nat) (hp : p < h.length) :
    ∃ v, h[p]? = some v ∧ deref h p = some v :=
  ⟨h[p], by simp [List.getElem?_eq_getElem hp], by simp [deref, List.getElem?_eq_getElem hp]⟩

/-! ## One call on a well-formed state -/

/-- A pop of any form on a queue holding `p :: rest` removes the front handle, delivers the
object behind it, and leaves the rest of the sequence as it was. -/
theorem step_pop_cons (mv : MoveAssign T) (o : Op T) (ho : o.isPop = true) (h : List T)
    (t : List Event) (p : Nat) (rest : List Nat) (hwf : WF (⟨h, ⟨p :: rest⟩, t⟩ : M T)) :
    ∃ h1 : List T,
      (step mv o ⟨h, ⟨p :: rest⟩, t⟩).2 = ⟨h1, ⟨rest⟩, t ++ popEvents⟩
      ∧ delivered h1 (step mv o ⟨h, ⟨p :: rest⟩, t⟩).1 = [deref h p]
      ∧ contents h1 ⟨rest⟩ = contents h ⟨rest⟩
      ∧ h1.length = h.length := by
  obtain ⟨hnd, hlt⟩ := hwf
  have hp : p < h.length := hlt p (by simp)
  have hnot : p ∉ rest := (List.nodup_cons.mp hnd).1
  obtain ⟨v, hv, hd⟩ := deref_of_lt h p hp
  cases o with
  | push v => simp [Op.isPop] at ho
  | empty => simp [Op.isPop] at ho
  | try_pop_ref s =>
    refine ⟨h.set p (mv.residue v), ?_, ?_, ?_, ?_⟩
    · simp [step, try_pop_ref_cons mv s v h t p rest hv]
    · simp [step, try_pop_ref_cons mv s v h t p rest hv, delivered, hd]
    · exact contents_set h p _ ⟨rest⟩ hnot
    · simp
  | try_pop =>
    refine ⟨h, ?_, ?_, rfl, rfl⟩
    · simp [step, try_pop_cons]
    · simp [step, try_pop_cons, delivered]
  | wait_and_pop_ref n s =>
    refine ⟨h.set p (mv.residue v), ?_, ?_, ?_, ?_⟩
    · simp [step, wait_and_pop_ref_cons mv n s v h t p rest hv]
    · simp [step, wait_and_pop_ref_cons mv n s v h t p rest hv, delivered, hd]
    · exact contents_set h p _ ⟨rest⟩ hnot
    · simp
  | wait_and_pop n =>
    refine ⟨h, ?_, ?_, rfl, rfl⟩
    · simp [step, wait_and_pop_cons]
    · simp [step, wait_and_pop_cons, delivered]

/-- A pop of any form on a queue holding nothing delivers nothing and leaves heap and
sequence as they were. -/
theorem step_pop_nil (mv : MoveAssign T) (o : Op T) (ho : o.isPop = true) (h : List T)
    (t : List Event) :
    ∃ t1 : List Event,
      (step mv o ⟨h, ⟨[]⟩, t⟩).2 = ⟨h, ⟨[]⟩, t1⟩
      ∧ delivered h (step mv o ⟨h, ⟨[]⟩, t⟩).1 = [] := by
  cases o with
  | push v => simp [Op.isPop] at ho
  | empty => simp [Op.isPop] at ho
  | try_pop_ref s =>
    exact ⟨t ++ probeEvents, by simp [step, try_pop_ref_nil],
      by simp [step, try_pop_ref_nil, delivered]⟩
  | try_pop =>
    exact ⟨t ++ probeEvents, by simp [step, try_pop_nil], by simp [step, try_pop_nil, delivered]⟩
  | wait_and_pop_ref n s =>
    exact ⟨t ++ Event.lock Obj.self :: blockedEvents n, by simp [step, wait_and_pop_ref_nil],
      by simp [step, wait_and_pop_ref_nil, delivered]⟩
  | wait_and_pop n =>
    exact ⟨t ++ Event.lock Obj.self :: blockedEvents n, by simp [step, wait_and_pop_nil],
      by simp [step, wait_and_pop_nil, delivered]⟩

/-- Well-formedness is kept by every call. -/
theorem step_wf (mv : MoveAssign T) (o : Op T) (m : M T) (hwf : WF m) :
    WF (step mv o m).2 := by
  obtain ⟨h, ⟨q⟩, t⟩ := m
  by_cases ho : o.isPop = true
  · cases q with
    | nil =>
      obtain ⟨t1, h1, _⟩ := step_pop_nil mv o ho h t
      rw [h1]
      exact ⟨List.nodup_nil, by simp⟩
    | cons p rest =>
      obtain ⟨h1, e1, _, _, hl⟩ := step_pop_cons mv o ho h t p rest hwf
      rw [e1]
      obtain ⟨hnd, hlt⟩ := hwf
      refine ⟨(List.nodup_cons.mp hnd).2, ?_⟩
      intro a ha
      simp only [hl]
      exact hlt a (List.mem_cons_of_mem _ ha)
  · obtain ⟨hnd, hlt⟩ := hwf
    cases o with
    | push v =>
      simp only [step, push_eq]
      refine ⟨?_, ?_⟩
      · simp only
        rw [List.nodup_append]
        refine ⟨hnd, List.nodup_singleton _, ?_⟩
        intro a ha hb
        simp at hb
        have := hlt a ha
        simp at this
        omega
      · intro a ha
        simp at ha ⊢
        rcases ha with ha | ha
        · have := hlt a ha
          simp at this
          omega
        · omega
    | empty =>
      simp only [step, empty_eq]
      exact ⟨hnd, hlt⟩
    | try_pop_ref s => simp [Op.isPop] at ho
    | try_pop => simp [Op.isPop] at ho
    | wait_and_pop_ref n s => simp [Op.isPop] at ho
    | wait_and_pop n => simp [Op.isPop] at ho

/-- One call: what it delivers, followed by what the queue holds afterwards, is what the
queue held before followed by what the call pushed. -/
theorem step_conserves (mv : MoveAssign T) (o : Op T) (m : M T) (hwf : WF m) :
    delivered (step mv o m).2.heap (step mv o m).1
        ++ contents (step mv o m).2.heap (step mv o m).2.self
      = contents m.heap m.self ++ (pushed [o]).map some := by
  obtain ⟨h, ⟨q⟩, t⟩ := m
  by_cases ho : o.isPop = true
  · have hpush : pushed [o] = [] := by
      cases o <;> simp [Op.isPop] at ho <;> simp [pushed]
    cases q with
    | nil =>
      obtain ⟨t1, h1, h2⟩ := step_pop_nil mv o ho h t
      rw [hpush, h1]
      simp [h2, contents]
    | cons p rest =>
      obtain ⟨h1, e1, e2, e3, _⟩ := step_pop_cons mv o ho h t p rest hwf
      rw [hpush, e1]
      simp only
      rw [e2, e3]
      simp [contents]
  · obtain ⟨hnd, hlt⟩ := hwf
    cases o with
    | push v =>
      simp only [step, push_eq, delivered, pushed]
      simp only [contents, List.map_append, List.nil_append, List.map_cons, List.map_nil]
      congr 1
      · exact contents_append h v ⟨q⟩ hlt
      · simp [deref]
    | empty => simp [step, empty_eq, delivered, pushed]
    | try_pop_ref s => simp [Op.isPop] at ho
    | try_pop => simp [Op.isPop] at ho
    | wait_and_pop_ref n s => simp [Op.isPop] at ho
    | wait_and_pop n => simp [Op.isPop] at ho

/-! ## Sequences of calls -/

theorem exec_append (mv : MoveAssign T) (a b : List (Op T)) (m : M T) :
    exec mv (a ++ b) m = exec mv b (exec mv a m) := by
  induction a generalizing m with
  | nil => rfl
  | cons o os ih => simp [exec, ih]

theorem results_append (mv : MoveAssign T) (a b : List (Op T)) (m : M T) :
    results mv (a ++ b) m = results mv a m ++ results mv b (exec mv a m) := by
  induction a generalizing m with
  | nil => rfl
  | cons o os ih => simp [exec, results, ih]

theorem deliveries_append (mv : MoveAssign T) (a b : List (Op T)) (m : M T) :
    deliveries mv (a ++ b) m = deliveries mv a m ++ deliveries mv b (exec mv a m) := by
  induction a generalizing m with
  | nil => rfl
  | cons o os ih => simp [exec, deliveries, ih]

theorem pushed_cons (o : Op T) (os : List (Op T)) :
    pushed (o :: os) = pushed [o] ++ pushed os := by
  cases o <;> simp [pushed]

theorem exec_wf (mv : MoveAssign T) (ops : List (Op T)) (m : M T) (hwf : WF m) :
    WF (exec mv ops m) := by
  induction ops generalizing m with
  | nil => exact hwf
  | cons o os ih => exact ih _ (step_wf mv o m hwf)

theorem start_new_wf (h : List T) : WF (M.start h ThreadSafeQueue.new) :=
  ⟨List.nodup_nil, by simp [M.start, ThreadSafeQueue.new]⟩

/-- Over a sequence of calls: what was delivered, followed by what the queue holds at the
end, is what the queue held at the start followed by what was pushed. -/
theorem exec_conserves (mv : MoveAssign T) (ops : List (Op T)) (m : M T) (hwf : WF m) :
    (deliveries mv ops m).flatten ++ contents (exec mv ops m).heap (exec mv ops m).self
      = contents m.heap m.self ++ (pushed ops).map some := by
  induction ops generalizing m with
  | nil => simp [deliveries, exec, pushed]
  | cons o os ih =>
    have h1 := step_conserves mv o m hwf
    have h2 := ih _ (step_wf mv o m hwf)
    rw [pushed_cons]
    simp only [deliveries, exec, List.flatten_cons, List.append_assoc, List.map_append]
    rw [h2, ← List.append_assoc, h1, List.append_assoc]

theorem delivered_length (h : List T) (r : Res T) :
    (delivered h r).length = if r.isPopSuccess then 1 else 0 := by
  cases r with
  | flag b s => cases b <;> simp [delivered, Res.isPopSuccess]
  | handle p => cases p <;> simp [delivered, Res.isPopSuccess]
  | done => simp [delivered, Res.isPopSuccess]
  | value s => simp [delivered, Res.isPopSuccess]
  | blocked => simp [delivered, Res.isPopSuccess]
  | isEmpty b => simp [delivered, Res.isPopSuccess]

theorem deliveries_join_length (mv : MoveAssign T) (ops : List (Op T)) (m : M T) :
    (deliveries mv ops m).flatten.length = (results mv ops m).countP Res.isPopSuccess := by
  induction ops generalizing m with
  | nil => simp [deliveries, results]
  | cons o os ih =>
    simp only [deliveries, results, List.flatten_cons, List.length_append, ih,
      delivered_length, List.countP_cons]
    omega

theorem contents_length (h : List T) (q : ThreadSafeQueue) :
    (contents h q).length = q.queue.length := by
  simp [contents]

/-- Number of pushes = number of successful pops + number of elements held. -/
theorem exec_count (mv : MoveAssign T) (ops : List (Op T)) (h0 : List T) :
    (results mv ops (M.start h0 ThreadSafeQueue.new)).countP Res.isPopSuccess
        + (exec mv ops (M.start h0 ThreadSafeQueue.new)).self.queue.length
      = (pushed ops).length := by
  have h := congrArg List.length
    (exec_conserves mv ops (M.start h0 ThreadSafeQueue.new) (start_new_wf h0))
  simp only [List.length_append, List.length_map, contents_length,
    deliveries_join_length] at h
  simpa [M.start, ThreadSafeQueue.new] using h

/-! ## FIFO order -/

theorem exec_pushes_wf_contents (mv : MoveAssign T) (ps : List T) (m : M T) (hwf : WF m) :
    contents (exec mv (ps.map Op.push) m).heap (exec mv (ps.map Op.push) m).self
      = contents m.heap m.self ++ ps.map some := by
  induction ps generalizing m with
  | nil => simp [exec]
  | cons p ps ih =>
    have h1 := step_conserves mv (Op.push p) m hwf
    have h2 := ih _ (step_wf mv (Op.push p) m hwf)
    simp only [List.map_cons, exec]
    rw [h2]
    simp only [step, delivered, pushed, List.nil_append, List.map_cons, List.map_nil] at h1
    simp only [step]
    rw [h1]
    simp

theorem isPop_of_isTryPop (o : Op T) (h : o.isTryPop = true) : o.isPop = true := by
  cases o <;> simp [Op.isTryPop] at h <;> simp [Op.isPop]

theorem delivered_singleton_success (h : List T) (r : Res T) (c : Option T)
    (hd : delivered h r = [c]) : r.isPopSuccess = true := by
  have := delivered_length h r
  rw [hd] at this
  by_contra hc
  simp [hc] at this

/-- As many pops as the queue holds elements deliver these elements front first, each pop
succeeding, and leave the queue holding nothing. -/
theorem pops_deliver (mv : MoveAssign T) (pops : List (Op T)) (m : M T) (hwf : WF m)
    (hp : ∀ o ∈ pops, o.isPop = true) (hn : pops.length = m.self.queue.length) :
    deliveries mv pops m = (contents m.heap m.self).map (fun c => [c])
      ∧ (results mv pops m).all Res.isPopSuccess = true
      ∧ (exec mv pops m).self.queue = [] := by
  induction pops generalizing m with
  | nil =>
    obtain ⟨h, ⟨q⟩, t⟩ := m
    have hq : q = [] := by
      simp at hn
      exact List.length_eq_zero.mp hn.symm
    subst hq
    simp [deliveries, results, exec, contents]
  | cons o os ih =>
    obtain ⟨h, ⟨q⟩, t⟩ := m
    cases q with
    | nil => simp at hn
    | cons p rest =>
      have ho : o.isPop = true := hp o (by simp)
      obtain ⟨h1, e1, e2, e3, e4⟩ := step_pop_cons mv o ho h t p rest hwf
      have hwf1 := step_wf mv o _ hwf
      rw [e1] at hwf1
      have hn1 : os.length = rest.length := by simpa using hn
      obtain ⟨i1, i2, i3⟩ := ih ⟨h1, ⟨rest⟩, t ++ popEvents⟩ hwf1
        (fun a ha => hp a (List.mem_cons_of_mem _ ha)) hn1
      refine ⟨?_, ?_, ?_⟩
      · simp only [deliveries, e1, e2, i1, e3]
        simp [contents]
      · simp only [results, List.all_cons, e1, i2, Bool.and_true]
        exact delivered_singleton_success h1 _ _ e2
      · simp only [exec, e1, i3]

theorem try_pop_ref_of_empty (mv : MoveAssign T) (s : T) (m : M T)
    (he : m.self.queue = []) :
    try_pop_ref mv s m = ((false, s), ⟨m.heap, m.self, m.trace ++ probeEvents⟩) := by
  obtain ⟨h, ⟨q⟩, t⟩ := m
  simp only at he
  subst he
  exact try_pop_ref_nil mv s h t

theorem try_pop_of_empty (m : M T) (he : m.self.queue = []) :
    try_pop m = (none, ⟨m.heap, m.self, m.trace ++ probeEvents⟩) := by
  obtain ⟨h, ⟨q⟩, t⟩ := m
  simp only at he
  subst he
  exact try_pop_nil h t

/-- C1 (FIFO). Pushing `p1 .. pn` onto a newly constructed queue and then calling
`try_pop` n times, each call in either form, gives success each time with `p1 .. pn` in
that order; a further `try_pop`, in either form, reports that the queue is empty. -/
theorem fifo_order (mv : MoveAssign T) (h0 : List T) (ps : List T) (pops : List (Op T))
    (slot : T) (hp : ∀ o ∈ pops, o.isTryPop = true) (hn : pops.length = ps.length) :
    deliveries mv pops (exec mv (ps.map Op.push) (M.start h0 ThreadSafeQueue.new))
        = ps.map (fun p => [some p])
      ∧ (results mv pops (exec mv (ps.map Op.push) (M.start h0 ThreadSafeQueue.new))).all
          Res.isPopSuccess = true
      ∧ (try_pop_ref mv slot (exec mv (ps.map Op.push ++ pops)
          (M.start h0 ThreadSafeQueue.new))).1 = (false, slot)
      ∧ (try_pop (exec mv (ps.map Op.push ++ pops)
          (M.start h0 ThreadSafeQueue.new))).1 = none := by
  have hwf0 := start_new_wf h0
  have hwf1 := exec_wf mv (ps.map Op.push) _ hwf0
  have hc := exec_pushes_wf_contents mv ps _ hwf0
  have hc0 : contents (M.start h0 ThreadSafeQueue.new).heap
      (M.start h0 ThreadSafeQueue.new).self = [] := by
    simp [contents, M.start, ThreadSafeQueue.new]
  rw [hc0, List.nil_append] at hc
  have hlen : pops.length
      = (exec mv (ps.map Op.push) (M.start h0 ThreadSafeQueue.new)).self.queue.length := by
    have := congrArg List.length hc
    simp only [contents_length, List.length_map] at this
    omega
  obtain ⟨d1, d2, d3⟩ := pops_deliver mv pops _ hwf1
    (fun o ho => isPop_of_isTryPop o (hp o ho)) hlen
  refine ⟨?_, d2, ?_, ?_⟩
  · rw [d1, hc]
    simp
  · rw [exec_append, try_pop_ref_of_empty mv slot _ d3]
  · rw [exec_append, try_pop_of_empty _ d3]

/-- Witness of C1: push(10), push(20), then `try_pop` in the slot form, in the handle form
and once more. -/
theorem fifo_order_witness :
    deliveries (trivialMove Nat) [Op.try_pop_ref 0, Op.try_pop]
        (exec (trivialMove Nat) ([10, 20].map Op.push) (M.start [] ThreadSafeQueue.new))
        = [10, 20].map (fun p => [some p])
      ∧ (results (trivialMove Nat) [Op.try_pop_ref 0, Op.try_pop]
          (exec (trivialMove Nat) ([10, 20].map Op.push)
            (M.start [] ThreadSafeQueue.new))).all Res.isPopSuccess = true
      ∧ (try_pop_ref (trivialMove Nat) 0 (exec (trivialMove Nat)
          ([10, 20].map Op.push ++ [Op.try_pop_ref 0, Op.try_pop])
          (M.start [] ThreadSafeQueue.new))).1 = (false, 0)
      ∧ (try_pop (exec (trivialMove Nat)
          ([10, 20].map Op.push ++ [Op.try_pop_ref 0, Op.try_pop])
          (M.start [] ThreadSafeQueue.new))).1 = none :=
  fifo_order (trivialMove Nat) [] [10, 20] [Op.try_pop_ref 0, Op.try_pop] 0
    (by simp [Op.isTryPop]) (by simp)

/-- The example of the specification: push(10), push(20), then three calls of
`try_pop(T&)` with the slot holding 0 before each call. -/
theorem fifo_example :
    results (trivialMove Nat)
        [Op.push 10, Op.push 20, Op.try_pop_ref 0, Op.try_pop_ref 0, Op.try_pop_ref 0]
        (M.start [] ThreadSafeQueue.new)
      = [Res.done, Res.done, Res.flag true 10, Res.flag true 20, Res.flag false 0] := by
  decide

/-! ## Conservation -/

/-- C2 (conservation). For every sequence of calls on a newly constructed queue, taken in
lock order: the elements delivered by the successful pops, followed by the elements the
queue still holds, are the pushed values in push order; the successful pops are no more
than the pushes, and together with the elements held they are as many as the pushes. -/
theorem conservation (mv : MoveAssign T) (h0 : List T) (ops : List (Op T)) :
    (deliveries mv ops (M.start h0 ThreadSafeQueue.new)).flatten
        ++ contents (exec mv ops (M.start h0 ThreadSafeQueue.new)).heap
            (exec mv ops (M.start h0 ThreadSafeQueue.new)).self
        = (pushed ops).map some
      ∧ (results mv ops (M.start h0 ThreadSafeQueue.new)).countP Res.isPopSuccess
          ≤ (pushed ops).length
      ∧ (results mv ops (M.start h0 ThreadSafeQueue.new)).countP Res.isPopSuccess
          + (exec mv ops (M.start h0 ThreadSafeQueue.new)).self.queue.length
          = (pushed ops).length := by
  have h := exec_conserves mv ops (M.start h0 ThreadSafeQueue.new) (start_new_wf h0)
  have hc := exec_count mv ops h0
  refine ⟨?_, by omega, hc⟩
  simpa [contents, M.start, ThreadSafeQueue.new] using h

/-! ## try_pop on a queue holding nothing -/

/-- C3. On a queue with zero elements `try_pop(T&)` returns false and leaves the caller's
slot as it was, `try_pop()` returns the null handle; both leave heap and sequence as they
were (the sequence is still empty), and neither suspends the thread: the events issued
are lock, one read of the sequence, unlock. -/
theorem try_pop_on_empty (mv : MoveAssign T) (h : List T) (t : List Event) (slot : T) :
    try_pop_ref mv slot ⟨h, ThreadSafeQueue.new, t⟩
        = ((false, slot), ⟨h, ThreadSafeQueue.new, t ++ probeEvents⟩)
      ∧ try_pop (⟨h, ThreadSafeQueue.new, t⟩ : M T)
        = (none, ⟨h, ThreadSafeQueue.new, t ++ probeEvents⟩)
      ∧ probeEvents.any Event.isSuspend = false
      ∧ contents h ThreadSafeQueue.new = [] :=
  ⟨try_pop_ref_nil mv slot h t, try_pop_nil h t, by decide, rfl⟩

/-! ## empty -/

theorem empty_of_length (m : M T) :
    (empty m).1 = decide (m.self.queue.length = 0) := by
  rw [empty_eq]
  cases m.self.queue <;> simp

/-- C8. `empty()` returns true exactly when the sequence has zero elements, and leaves
heap and sequence as they were; it returns true on a newly constructed queue, false after
any push, and after a sequence of calls on a newly constructed queue it returns true
exactly when the successful pops are as many as the pushes. -/
theorem empty_spec (mv : MoveAssign T) (m : M T) (h0 : List T) (v : T)
    (ops : List (Op T)) :
    ((empty m).1 = true ↔ (contents m.heap m.self).length = 0)
      ∧ (empty m).2.self = m.self ∧ (empty m).2.heap = m.heap
      ∧ (empty (M.start h0 ThreadSafeQueue.new)).1 = true
      ∧ (empty (push v m)).1 = false
      ∧ ((empty (exec mv ops (M.start h0 ThreadSafeQueue.new))).1 = true
          ↔ (results mv ops (M.start h0 ThreadSafeQueue.new)).countP Res.isPopSuccess
              = (pushed ops).length) := by
  refine ⟨?_, ?_, ?_, ?_, ?_, ?_⟩
  · rw [empty_of_length, contents_length]
    simp
  · rw [empty_eq]
  · rw [empty_eq]
  · rfl
  · rw [empty_of_length, push_eq]
    simp
  · have hc := exec_count mv ops h0
    rw [empty_of_length]
    simp only [decide_eq_true_eq]
    omega

/-! ## The two return forms -/

/-- C4. On every well-formed state, `try_pop(T&)` returns true exactly when `try_pop()`
returns a non-null handle; the handle returned is the front one and the value written to
the slot is the value of the object it points to; both forms leave the same handles and
the same elements in the queue. On a non-empty queue the same holds of the two forms of
`wait_and_pop`, which both return. -/
theorem pop_forms_equivalent (mv : MoveAssign T) (m : M T) (slot : T) (n k : Nat)
    (hwf : WF m) :
    ((try_pop_ref mv slot m).1.1 = true ↔ (try_pop m).1 ≠ none)
      ∧ (∀ p, (try_pop m).1 = some p →
          m.self.queue.head? = some p
          ∧ deref (try_pop m).2.heap p = some (try_pop_ref mv slot m).1.2)
      ∧ (try_pop_ref mv slot m).2.self = (try_pop m).2.self
      ∧ contents (try_pop_ref mv slot m).2.heap (try_pop_ref mv slot m).2.self
          = contents (try_pop m).2.heap (try_pop m).2.self
      ∧ (m.self.queue ≠ [] →
          ∃ p v, (wait_and_pop n m).1 = some p
            ∧ (wait_and_pop_ref mv k slot m).1 = some v
            ∧ m.self.queue.head? = some p
            ∧ deref (wait_and_pop n m).2.heap p = some v
            ∧ (wait_and_pop_ref mv k slot m).2.self = (wait_and_pop n m).2.self
            ∧ contents (wait_and_pop_ref mv k slot m).2.heap
                (wait_and_pop_ref mv k slot m).2.self
              = contents (wait_and_pop n m).2.heap (wait_and_pop n m).2.self) := by
  obtain ⟨h, ⟨q⟩, t⟩ := m
  cases q with
  | nil =>
    simp [try_pop_ref_nil, try_pop_nil]
  | cons p rest =>
    obtain ⟨hnd, hlt⟩ := hwf
    have hp : p < h.length := hlt p (by simp)
    have hnot : p ∉ rest := (List.nodup_cons.mp hnd).1
    obtain ⟨v, hv, hd⟩ := deref_of_lt h p hp
    have hcs := contents_set h p (mv.residue v) ⟨rest⟩ hnot
    rw [try_pop_ref_cons mv slot v h t p rest hv, try_pop_cons,
      wait_and_pop_ref_cons mv k slot v h t p rest hv, wait_and_pop_cons]
    refine ⟨by simp, ?_, rfl, hcs, ?_⟩
    · intro a ha
      simp only [Option.some.injEq] at ha
      subst ha
      exact ⟨rfl, hd⟩
    · intro _
      exact ⟨p, v, rfl, rfl, rfl, hd, rfl, hcs⟩

/-- Witness of C4: the queue holding the handles 0 and 1 of the objects 5 and 6. -/
theorem pop_forms_equivalent_witness :
    WF twoElems
      ∧ (try_pop_ref (trivialMove Nat) 0 twoElems).1 = (true, 5)
      ∧ (try_pop twoElems).1 = some 0
      ∧ (((try_pop_ref (trivialMove Nat) 0 twoElems).1.1 = true
            ↔ (try_pop twoElems).1 ≠ none)
        ∧ (∀ p, (try_pop twoElems).1 = some p →
            twoElems.self.queue.head? = some p
            ∧ deref (try_pop twoElems).2.heap p
              = some (try_pop_ref (trivialMove Nat) 0 twoElems).1.2)
        ∧ (try_pop_ref (trivialMove Nat) 0 twoElems).2.self
            = (try_pop twoElems).2.self
        ∧ contents (try_pop_ref (trivialMove Nat) 0 twoElems).2.heap
              (try_pop_ref (trivialMove Nat) 0 twoElems).2.self
            = contents (try_pop twoElems).2.heap
              (try_pop twoElems).2.self
        ∧ (twoElems.self.queue ≠ [] →
            ∃ p v, (wait_and_pop 2 twoElems).1 = some p
              ∧ (wait_and_pop_ref (trivialMove Nat) 3 0 twoElems).1 = some v
              ∧ twoElems.self.queue.head? = some p
              ∧ deref (wait_and_pop 2 twoElems).2.heap p = some v
              ∧ (wait_and_pop_ref (trivialMove Nat) 3 0 twoElems).2.self
                  = (wait_and_pop 2 twoElems).2.self
              ∧ contents (wait_and_pop_ref (trivialMove Nat) 3 0 twoElems).2.heap
                  (wait_and_pop_ref (trivialMove Nat) 3 0 twoElems).2.self
                = contents (wait_and_pop 2 twoElems).2.heap
                  (wait_and_pop 2 twoElems).2.self)) :=
  ⟨by decide, by decide, by decide,
    pop_forms_equivalent (trivialMove Nat) twoElems 0 2 3 (by decide)⟩

/-! ## wait_and_pop -/

theorem blockedEvents_getLast (n : Nat) :
    (blockedEvents n).getLast? = some (Event.suspend Obj.self) := by
  induction n with
  | zero => rfl
  | succ n ih =>
    have hne : blockedEvents n ≠ [] := by
      cases n <;> simp [blockedEvents]
    simp only [blockedEvents]
    rw [List.getLast?_append_of_ne_nil _ hne, ih]

theorem blockedEvents_heldAfter (n : Nat) :
    heldAfter [Obj.self] (blockedEvents n) = [] := by
  induction n with
  | zero => rfl
  | succ n ih => simpa [blockedEvents, heldAfter] using ih

theorem wait_and_pop_ref_of_empty (mv : MoveAssign T) (n : Nat) (s : T) (m : M T)
    (he : m.self.queue = []) :
    wait_and_pop_ref mv n s m
      = (none, ⟨m.heap, m.self, m.trace ++ Event.lock Obj.self :: blockedEvents n⟩) := by
  obtain ⟨h, ⟨q⟩, t⟩ := m
  simp only at he
  subst he
  exact wait_and_pop_ref_nil mv n s h t

theorem wait_and_pop_of_empty (n : Nat) (m : M T) (he : m.self.queue = []) :
    wait_and_pop n m
      = (none, ⟨m.heap, m.self, m.trace ++ Event.lock Obj.self :: blockedEvents n⟩) := by
  obtain ⟨h, ⟨q⟩, t⟩ := m
  simp only at he
  subst he
  exact wait_and_pop_nil n h t

/-- On a well-formed state reached from a newly constructed queue, the object behind the
front handle is one of the pushed values. -/
theorem front_was_pushed (mv : MoveAssign T) (h0 : List T) (ops : List (Op T)) (p : Nat)
    (rest : List Nat)
    (hq : (exec mv ops (M.start h0 ThreadSafeQueue.new)).self.queue = p :: rest) :
    ∃ v, v ∈ pushed ops
      ∧ (exec mv ops (M.start h0 ThreadSafeQueue.new)).heap[p]? = some v := by
  have h := exec_conserves mv ops (M.start h0 ThreadSafeQueue.new) (start_new_wf h0)
  have hc0 : contents (M.start h0 ThreadSafeQueue.new).heap
      (M.start h0 ThreadSafeQueue.new).self = [] := by
    simp [contents, M.start, ThreadSafeQueue.new]
  rw [hc0, List.nil_append] at h
  have hmem : deref (exec mv ops (M.start h0 ThreadSafeQueue.new)).heap p
      ∈ (pushed ops).map some := by
    rw [← h]
    apply List.mem_append_right
    simp [contents, hq]
  obtain ⟨v, hv, hd⟩ := List.mem_map.mp hmem
  exact ⟨v, hv, by simpa [deref] using hd.symm⟩

/-- C5. `wait_and_pop`, in either form, returns exactly when the queue is non-empty
(whatever the number of wake-ups). On a non-empty queue it does what a successful
`try_pop` of the same form does: it removes the front handle and returns the object behind
it. On an empty queue it returns nothing: the thread ends suspended with the mutex
released and heap and sequence as they were. After any sequence of calls on a newly
constructed queue, a value it returns is one of the pushed values. -/
theorem wait_and_pop_spec (mv : MoveAssign T) (m : M T) (slot : T) (n : Nat) (h0 : List T)
    (ops : List (Op T)) (hwf : WF m) :
    (wait_and_pop_ref mv n slot m).1.isSome = !m.self.queue.isEmpty
      ∧ (wait_and_pop n m).1.isSome = !m.self.queue.isEmpty
      ∧ (m.self.queue ≠ [] →
          wait_and_pop_ref mv n slot m
              = (some (try_pop_ref mv slot m).1.2, (try_pop_ref mv slot m).2)
            ∧ (try_pop_ref mv slot m).1.1 = true
            ∧ wait_and_pop n m = try_pop m
            ∧ (wait_and_pop n m).1 = m.self.queue.head?
            ∧ (wait_and_pop n m).2.self.queue = m.self.queue.tail
            ∧ (wait_and_pop_ref mv n slot m).2.self.queue = m.self.queue.tail
            ∧ (wait_and_pop_ref mv n slot m).1 = m.self.queue.head?.bind (deref m.heap))
      ∧ (m.self.queue = [] →
          wait_and_pop_ref mv n slot m
              = (none, ⟨m.heap, m.self, m.trace ++ Event.lock Obj.self :: blockedEvents n⟩)
            ∧ wait_and_pop n m
              = (none, ⟨m.heap, m.self, m.trace ++ Event.lock Obj.self :: blockedEvents n⟩)
            ∧ (Event.lock Obj.self :: blockedEvents n).getLast?
              = some (Event.suspend Obj.self)
            ∧ heldAfter [] (Event.lock Obj.self :: blockedEvents n) = [])
      ∧ (∀ v, (wait_and_pop_ref mv n slot (exec mv ops (M.start h0 ThreadSafeQueue.new))).1
            = some v → v ∈ pushed ops)
      ∧ (∀ p, (wait_and_pop n (exec mv ops (M.start h0 ThreadSafeQueue.new))).1 = some p →
          ∃ v, v ∈ pushed ops
            ∧ deref (wait_and_pop n (exec mv ops (M.start h0 ThreadSafeQueue.new))).2.heap p
              = some v) := by
  refine ⟨?_, ?_, ?_, ?_, ?_, ?_⟩
  · obtain ⟨h, ⟨q⟩, t⟩ := m
    cases q with
    | nil => simp [wait_and_pop_ref_nil]
    | cons p rest =>
      obtain ⟨v, hv, _⟩ := deref_of_lt h p (hwf.2 p (by simp))
      simp [wait_and_pop_ref_cons mv n slot v h t p rest hv]
  · obtain ⟨h, ⟨q⟩, t⟩ := m
    cases q with
    | nil => simp [wait_and_pop_nil]
    | cons p rest => simp [wait_and_pop_cons]
  · obtain ⟨h, ⟨q⟩, t⟩ := m
    cases q with
    | nil => simp
    | cons p rest =>
      intro _
      obtain ⟨v, hv, hd⟩ := deref_of_lt h p (hwf.2 p (by simp))
      rw [wait_and_pop_ref_cons mv n slot v h t p rest hv,
        try_pop_ref_cons mv slot v h t p rest hv, wait_and_pop_cons, try_pop_cons]
      simp [hd]
  · intro he
    refine ⟨wait_and_pop_ref_of_empty mv n slot m he, wait_and_pop_of_empty n m he, ?_, ?_⟩
    · have hne : blockedEvents n ≠ [] := by
        cases n <;> simp [blockedEvents]
      show ([Event.lock Obj.self] ++ blockedEvents n).getLast? = _
      rw [List.getLast?_append_of_ne_nil _ hne]
      exact blockedEvents_getLast n
    · simpa [heldAfter] using blockedEvents_heldAfter n
  · intro v hv
    generalize hm : exec mv ops (M.start h0 ThreadSafeQueue.new) = m2 at hv
    have hq2 : ∀ p rest, m2.self.queue = p :: rest →
        ∃ v, v ∈ pushed ops ∧ m2.heap[p]? = some v := by
      intro p rest hq
      rw [← hm] at hq ⊢
      exact front_was_pushed mv h0 ops p rest hq
    obtain ⟨h, ⟨q⟩, t⟩ := m2
    cases q with
    | nil => simp [wait_and_pop_ref_nil] at hv
    | cons p rest =>
      obtain ⟨w, hw, hwv⟩ := hq2 p rest rfl
      simp only at hwv
      rw [wait_and_pop_ref_cons mv n slot w h t p rest hwv] at hv
      simp only [Option.some.injEq] at hv
      exact hv ▸ hw
  · intro p hp
    generalize hm : exec mv ops (M.start h0 ThreadSafeQueue.new) = m2 at hp ⊢
    have hq2 : ∀ p rest, m2.self.queue = p :: rest →
        ∃ v, v ∈ pushed ops ∧ m2.heap[p]? = some v := by
      intro p rest hq
      rw [← hm] at hq ⊢
      exact front_was_pushed mv h0 ops p rest hq
    obtain ⟨h, ⟨q⟩, t⟩ := m2
    cases q with
    | nil => simp [wait_and_pop_nil] at hp
    | cons a rest =>
      obtain ⟨w, hw, hwv⟩ := hq2 a rest rfl
      simp only at hwv
      rw [wait_and_pop_cons] at hp ⊢
      simp only [Option.some.injEq] at hp
      subst hp
      exact ⟨w, hw, by simpa [deref] using hwv⟩

/-- Witness of C5: on a queue holding 5 and 6, both forms return the front element 5 as
`try_pop` does. -/
theorem wait_and_pop_spec_witness :
    WF twoElems
      ∧ twoElems.self.queue ≠ []
      ∧ wait_and_pop_ref (trivialMove Nat) 2 0 twoElems
          = (some (try_pop_ref (trivialMove Nat) 0 twoElems).1.2,
              (try_pop_ref (trivialMove Nat) 0 twoElems).2)
      ∧ (try_pop_ref (trivialMove Nat) 0 twoElems).1 = (true, 5)
      ∧ wait_and_pop 2 twoElems = try_pop twoElems
      ∧ (wait_and_pop 2 twoElems).1 = some 0
      ∧ (wait_and_pop_ref (trivialMove Nat) 2 0 twoElems).1 = some 5 :=
  have h := (wait_and_pop_spec (trivialMove Nat) twoElems 0 2 [] [Op.push 7]
    (by decide)).2.2.1 (by decide)
  ⟨by decide, by decide, h.1, by decide, h.2.2.1, by decide, by decide⟩

/-! ## Copy construction -/

/-- C6, evaluation at the failing input. With elements of type `std::unique_ptr<int>`:
A holds [7], B is a copy of A and holds the same sequence, 4 is pushed on A, and
`B.try_pop(v)` returns true with `v` = 7. The handles A holds are the same before and
after that pop, but the elements are not: A held [7, 4] before and holds [null, 4]
after. -/
theorem copy_pop_on_copy_changes_source :
    contents queueB.heap queueB.self = [some (some 7)]
      ∧ contents queueA2.heap queueA2.self = [some (some 7), some (some 4)]
      ∧ (try_pop_ref uniquePtrMove none (M.start queueA2.heap queueB.self)).1
          = (true, some 7)
      ∧ contents (try_pop_ref uniquePtrMove none (M.start queueA2.heap queueB.self)).2.heap
          queueA2.self = [some none, some (some 4)] := by
  decide

/-- C7, evaluation at the failing input. With elements of type `std::unique_ptr<int>`:
A holds [7] and B is a copy of A; both hold the same handle, so the element is stored
once. `A.try_pop(v)` returns true with `v` = 7, and the `B.try_pop()` that follows returns
a handle to a null pointer, not to the 7 that A held at the time of the copy. -/
theorem copy_shares_elements :
    queueA.self.queue = [0] ∧ queueB.self.queue = [0]
      ∧ contents queueB.heap queueB.self = [some (some 7)]
      ∧ (try_pop_ref uniquePtrMove none (M.start queueB.heap queueA.self)).1
          = (true, some 7)
      ∧ (try_pop (M.start
          (try_pop_ref uniquePtrMove none (M.start queueB.heap queueA.self)).2.heap
          queueB.self)).1 = some 0
      ∧ deref (try_pop (M.start
          (try_pop_ref uniquePtrMove none (M.start queueB.heap queueA.self)).2.heap
          queueB.self)).2.heap 0 = some none := by
  decide

/-- A copy of a well-formed queue is well-formed. -/
theorem copy_wf (a : ThreadSafeQueue) (h : List T) (t : List Event)
    (hwf : WF (⟨h, a, t⟩ : M T)) : WF (copy a h) := by
  rw [copy_eq]
  exact hwf

/-- The copy holds the handles of the source, over the same heap; a push on the source
leaves the elements of a well-formed copy as they were; a pop on the copy in the handle
form leaves the heap, and so the elements of the source, as they were; a pop on the copy
in the slot form does so when the move assignment of the element type keeps the value of
its source. -/
theorem copy_independent_parts (a : ThreadSafeQueue) (h : List T) (v slot : T)
    (t : List Event) (hwf : WF (copy a h)) :
    (copy a h).self = a ∧ (copy a h).heap = h
      ∧ contents (push v ⟨h, a, t⟩).heap (copy a h).self = contents h (copy a h).self
      ∧ (try_pop (⟨h, (copy a h).self, t⟩ : M T)).2.heap = h
      ∧ (try_pop_ref (trivialMove T) slot ⟨h, (copy a h).self, t⟩).2.heap = h := by
  rw [copy_eq] at hwf ⊢
  obtain ⟨q⟩ := a
  refine ⟨rfl, rfl, ?_, ?_, ?_⟩
  · rw [push_eq]
    exact contents_append h v ⟨q⟩ hwf.2
  · cases q with
    | nil => simp [try_pop_nil]
    | cons p rest => simp [try_pop_cons]
  · cases q with
    | nil => simp [try_pop_ref_nil]
    | cons p rest =>
      obtain ⟨w, hw, _⟩ := deref_of_lt h p (hwf.2 p (by simp))
      rw [try_pop_ref_cons (trivialMove T) slot w h t p rest hw]
      simp only [trivialMove]
      apply List.ext_getElem?
      intro i
      by_cases hi : p = i
      · subst hi
        simp [List.getElem?_set_self, hw, List.getElem?_eq_some.mp hw |>.1]
      · simp [List.getElem?_set_ne hi]

/-- The example of the specification with `int` elements: A holds [1, 2, 3], B is a copy
of A, 4 is pushed on A, and a pop on B gives 1 and leaves B holding [2, 3] while A holds
[1, 2, 3, 4]. -/
theorem copy_example_ints :
    (try_pop_ref (trivialMove Int) 0
        (M.start (push 4 (M.start [1, 2, 3] ⟨[0, 1, 2]⟩)).heap
          (copy (T := Int) ⟨[0, 1, 2]⟩ [1, 2, 3]).self)).1 = (true, 1)
      ∧ contents (try_pop_ref (trivialMove Int) 0
          (M.start (push 4 (M.start [1, 2, 3] ⟨[0, 1, 2]⟩)).heap
            (copy (T := Int) ⟨[0, 1, 2]⟩ [1, 2, 3]).self)).2.heap
          (try_pop_ref (trivialMove Int) 0
            (M.start (push 4 (M.start [1, 2, 3] ⟨[0, 1, 2]⟩)).heap
              (copy (T := Int) ⟨[0, 1, 2]⟩ [1, 2, 3]).self)).2.self
          = [some 2, some 3]
      ∧ contents (try_pop_ref (trivialMove Int) 0
          (M.start (push 4 (M.start [1, 2, 3] ⟨[0, 1, 2]⟩)).heap
            (copy (T := Int) ⟨[0, 1, 2]⟩ [1, 2, 3]).self)).2.heap
          (push (4 : Int) (M.start [1, 2, 3] ⟨[0, 1, 2]⟩)).self
          = [some 1, some 2, some 3, some 4] := by
  decide

/-! ## Lock discipline -/

theorem disciplined_append (held : List Obj) (a b : List Event) :
    disciplined held (a ++ b) = (disciplined held a && disciplined (heldAfter held a) b) := by
  induction a generalizing held with
  | nil => simp [disciplined, heldAfter]
  | cons e es ih => cases e <;> simp [disciplined, heldAfter, ih, Bool.and_assoc]

theorem heldAfter_append (held : List Obj) (a b : List Event) :
    heldAfter held (a ++ b) = heldAfter (heldAfter held a) b := by
  induction a generalizing held with
  | nil => simp [heldAfter]
  | cons e es ih => cases e <;> simp [heldAfter, ih]

theorem blockedEvents_disciplined (n : Nat) :
    disciplined [Obj.self] (blockedEvents n) = true := by
  induction n with
  | zero => rfl
  | succ n ih => simpa [blockedEvents, disciplined] using ih

/-- The events of one call keep the lock discipline and end with the mutex released. -/
theorem step_events (mv : MoveAssign T) (o : Op T) (m : M T) (hwf : WF m) :
    ∃ evs, (step mv o m).2.trace = m.trace ++ evs
      ∧ disciplined [] evs = true ∧ heldAfter [] evs = [] := by
  obtain ⟨h, ⟨q⟩, t⟩ := m
  cases o with
  | push v => exact ⟨pushEvents, by simp [step, push_eq], by decide, by decide⟩
  | empty => exact ⟨probeEvents, by simp [step, empty_eq], by decide, by decide⟩
  | try_pop_ref s =>
    cases q with
    | nil => exact ⟨probeEvents, by simp [step, try_pop_ref_nil], by decide, by decide⟩
    | cons p rest =>
      obtain ⟨h1, e1, _⟩ := step_pop_cons mv (Op.try_pop_ref s) rfl h t p rest hwf
      exact ⟨popEvents, by rw [e1], by decide, by decide⟩
  | try_pop =>
    cases q with
    | nil => exact ⟨probeEvents, by simp [step, try_pop_nil], by decide, by decide⟩
    | cons p rest =>
      obtain ⟨h1, e1, _⟩ := step_pop_cons mv Op.try_pop rfl h t p rest hwf
      exact ⟨popEvents, by rw [e1], by decide, by decide⟩
  | wait_and_pop_ref n s =>
    cases q with
    | nil =>
      exact ⟨Event.lock Obj.self :: blockedEvents n, by simp [step, wait_and_pop_ref_nil],
        by simpa [disciplined] using blockedEvents_disciplined n,
        by simpa [heldAfter] using blockedEvents_heldAfter n⟩
    | cons p rest =>
      obtain ⟨h1, e1, _⟩ := step_pop_cons mv (Op.wait_and_pop_ref n s) rfl h t p rest hwf
      exact ⟨popEvents, by rw [e1], by decide, by decide⟩
  | wait_and_pop n =>
    cases q with
    | nil =>
      exact ⟨Event.lock Obj.self :: blockedEvents n, by simp [step, wait_and_pop_nil],
        by simpa [disciplined] using blockedEvents_disciplined n,
        by simpa [heldAfter] using blockedEvents_heldAfter n⟩
    | cons p rest =>
      obtain ⟨h1, e1, _⟩ := step_pop_cons mv (Op.wait_and_pop n) rfl h t p rest hwf
      exact ⟨popEvents, by rw [e1], by decide, by decide⟩

theorem exec_disciplined_aux (mv : MoveAssign T) (ops : List (Op T)) (m : M T)
    (hwf : WF m) (hd : disciplined [] m.trace = true) (hh : heldAfter [] m.trace = []) :
    disciplined [] (exec mv ops m).trace = true
      ∧ heldAfter [] (exec mv ops m).trace = [] := by
  induction ops generalizing m with
  | nil => exact ⟨hd, hh⟩
  | cons o os ih =>
    obtain ⟨evs, e1, e2, e3⟩ := step_events mv o m hwf
    apply ih _ (step_wf mv o m hwf)
    · rw [e1, disciplined_append, hd, hh, e2]
      rfl
    · rw [e1, heldAfter_append, hh, e3]

/-- The member functions `push`, `try_pop`, `wait_and_pop` and `empty`, in any sequence on
a newly constructed queue, read and write the sequence only with the mutex of the queue
held, and end with the mutex released. -/
theorem member_functions_disciplined (mv : MoveAssign T) (h0 : List T)
    (ops : List (Op T)) :
    disciplined [] (exec mv ops (M.start h0 ThreadSafeQueue.new)).trace = true
      ∧ heldAfter [] (exec mv ops (M.start h0 ThreadSafeQueue.new)).trace = [] :=
  exec_disciplined_aux mv ops _ (start_new_wf h0) rfl rfl

/-- C9, evaluation at the failing input. The copy constructor locks the mutex of the
object under construction and reads the sequence of `other` without holding the mutex of
`other`: its events break the lock discipline, for every source queue. -/
theorem copy_reads_source_unlocked (other : ThreadSafeQueue) (h : List T) :
    (copy other h).trace = [Event.lock Obj.self, Event.seqRead Obj.other,
        Event.seqWrite Obj.self, Event.unlock Obj.self]
      ∧ disciplined [] (copy other h).trace = false
      ∧ (Event.lock Obj.other ∉ (copy other h).trace) := by
  rw [copy_eq]
  refine ⟨rfl, ?_, ?_⟩
  · show disciplined [] [Event.lock Obj.self, Event.seqRead Obj.other,
      Event.seqWrite Obj.self, Event.unlock Obj.self] = false
    decide
  · show Event.lock Obj.other ∉ [Event.lock Obj.self, Event.seqRead Obj.other,
      Event.seqWrite Obj.self, Event.unlock Obj.self]
    decide

/-! ## Order of the steps of push -/

/-- C10, counterexample. `push(10)` on a newly constructed queue signals the condition
while it holds the mutex: the release comes after the signal. -/
theorem push_signals_before_release :
    (push (10 : Nat) (M.start [] ThreadSafeQueue.new)).trace
        = [Event.makeShared, Event.lock Obj.self, Event.seqWrite Obj.self,
            Event.notifyOne Obj.self, Event.unlock Obj.self]
      ∧ signalsUnlocked [] (push (10 : Nat) (M.start [] ThreadSafeQueue.new)).trace
          = false := by
  decide

/-- C10 as amended. `push` performs its steps in the order: build the element handle,
acquire the lock, append the handle to the tail, signal the condition, release the lock.
It signals once, with notify-one and not with a broadcast, while it holds the lock. -/
theorem push_step_order (v : T) (m : M T) :
    (push v m).trace = m.trace ++ [Event.makeShared, Event.lock Obj.self,
        Event.seqWrite Obj.self, Event.notifyOne Obj.self, Event.unlock Obj.self]
      ∧ (push v m).heap = m.heap ++ [v]
      ∧ (push v m).self.queue = m.self.queue ++ [m.heap.length]
      ∧ ((push v (M.start m.heap m.self)).trace.filter Event.isSignal)
          = [Event.notifyOne Obj.self]
      ∧ signalsLocked [] (push v (M.start m.heap m.self)).trace = true
      ∧ heldAfter [] (push v (M.start m.heap m.self)).trace = [] := by
  rw [push_eq, push_eq]
  refine ⟨rfl, rfl, rfl, ?_, ?_, ?_⟩
  · show List.filter Event.isSignal ([] ++ pushEvents) = _
    decide
  · show signalsLocked [] ([] ++ pushEvents) = true
    decide
  · show heldAfter [] ([] ++ pushEvents) = []
    decide

end MT
